import Mathlib

/-!
Verification development for the gls utility (a long-format directory
lister written in C).  The definitions below are a shallow embedding of
the C sources under src/: display.c (field formatters), gls.c (identity
cache, comparator, directory collector, orchestrator).  Machine integers
are modelled as Nat or Int; fallible system calls (lstat, stat, opendir,
readlink, getpwuid) are modelled as Option-valued inputs supplied by the
caller, i.e. the filesystem is an explicit oracle.
-/

/-- Snapshot of the struct stat fields the program reads.  st_blocks is the
block count in the native 512-byte units; on a real filesystem it is
nonnegative, so it is modelled as Nat. -/
structure StatRec where
  mode : Nat
  nlink : Nat
  uid : Nat
  gid : Nat
  size : Nat
  mtime : Int
  blocks : Nat
  deriving Repr, DecidableEq

/-- File-type mask S_IFMT (octal 170000). -/
def S_IFMT : Nat := 0o170000

def S_IFDIR : Nat := 0o040000

def S_IFLNK : Nat := 0o120000

def S_IFCHR : Nat := 0o020000

def S_IFBLK : Nat := 0o060000

def S_IFIFO : Nat := 0o010000

def S_IFSOCK : Nat := 0o140000

def S_IFREG : Nat := 0o100000

def S_ISUID : Nat := 0o4000

def S_ISGID : Nat := 0o2000

def S_ISVTX : Nat := 0o1000

def S_IRUSR : Nat := 0o400

def S_IWUSR : Nat := 0o200

def S_IXUSR : Nat := 0o100

def S_IRGRP : Nat := 0o40

def S_IWGRP : Nat := 0o20

def S_IXGRP : Nat := 0o10

def S_IROTH : Nat := 0o4

def S_IWOTH : Nat := 0o2

def S_IXOTH : Nat := 0o1

/-- Predicate S_ISDIR from sys/stat.h: the file-type bits equal S_IFDIR. -/
def S_ISDIR (m : Nat) : Bool := m &&& S_IFMT == S_IFDIR

def S_ISLNK (m : Nat) : Bool := m &&& S_IFMT == S_IFLNK

def S_ISCHR (m : Nat) : Bool := m &&& S_IFMT == S_IFCHR

def S_ISBLK (m : Nat) : Bool := m &&& S_IFMT == S_IFBLK

def S_ISFIFO (m : Nat) : Bool := m &&& S_IFMT == S_IFIFO

def S_ISSOCK (m : Nat) : Bool := m &&& S_IFMT == S_IFSOCK

def S_ISREG (m : Nat) : Bool := m &&& S_IFMT == S_IFREG

/-- Embedding of get_permissions from src/display.c.  Each character is the
value the C code stores into perms[0] .. perms[9]; the result is the
10-character string (the C NUL terminator is not part of the string). -/
def get_permissions (mode : Nat) : String :=
  let c0 : Char :=
    if S_ISDIR mode then 'd'
    else if S_ISLNK mode then 'l'
    else if S_ISCHR mode then 'c'
    else if S_ISBLK mode then 'b'
    else if S_ISFIFO mode then 'p'
    else if S_ISSOCK mode then 's'
    else '-'
  let c1 : Char := if mode &&& S_IRUSR != 0 then 'r' else '-'
  let c2 : Char := if mode &&& S_IWUSR != 0 then 'w' else '-'
  let c3 : Char :=
    if mode &&& S_ISUID != 0 then (if mode &&& S_IXUSR != 0 then 's' else 'S')
    else (if mode &&& S_IXUSR != 0 then 'x' else '-')
  let c4 : Char := if mode &&& S_IRGRP != 0 then 'r' else '-'
  let c5 : Char := if mode &&& S_IWGRP != 0 then 'w' else '-'
  let c6 : Char :=
    if mode &&& S_ISGID != 0 then (if mode &&& S_IXGRP != 0 then 's' else 'S')
    else (if mode &&& S_IXGRP != 0 then 'x' else '-')
  let c7 : Char := if mode &&& S_IROTH != 0 then 'r' else '-'
  let c8 : Char := if mode &&& S_IWOTH != 0 then 'w' else '-'
  let c9 : Char :=
    if mode &&& S_ISVTX != 0 then (if mode &&& S_IXOTH != 0 then 't' else 'T')
    else (if mode &&& S_IXOTH != 0 then 'x' else '-')
  String.mk [c0, c1, c2, c3, c4, c5, c6, c7, c8, c9]

/-- Unit suffixes used by human_size in src/display.c. -/
def human_units : List String := ["B", "K", "M", "G", "T"]

/-- Loop of human_size from src/display.c: while (size >= 1024.0 && u < 4)
size is divided by 1024 and u incremented.  In the C code size is a double
holding bytes divided by 1024 u times; that quotient is at least 1024
exactly when the iterated floor quotient is (division of a double by 1024
is exact), so the loop is embedded over Nat with floor division.  The fuel
argument is 4 - u at entry, so it never runs out before u reaches 4. -/
def human_size_loop : Nat → Nat → Nat → Nat
  | 0, _, u => u
  | fuel + 1, b, u => if 1024 ≤ b ∧ u < 4 then human_size_loop fuel (b / 1024) (u + 1) else u

/-- Round-half-even of the rational (10 * b) / den, den positive: this is the
value printf rounds %.1f to, scaled by 10.  The C code hands snprintf the
exact double b / 1024 ^ u (exact because b fits in 53 bits and dividing a
double by 1024 only decrements the exponent), and glibc printf rounds the
decimal conversion to nearest with ties to even. -/
def rnd10 (b den : Nat) : Nat :=
  let t := 10 * b
  let q := t / den
  let r := t % den
  if 2 * r < den then q
  else if den < 2 * r then q + 1
  else if q % 2 == 0 then q else q + 1

/-- Embedding of human_size from src/display.c for a nonnegative byte count
(faithful for bytes below 2 ^ 53, where double arithmetic in the C code is
exact).  u = 0 corresponds to the %.0f format (no decimal point); u > 0 to
the %.1f format (one decimal digit). -/
def human_size (b : Nat) : String :=
  let u := human_size_loop 4 b 0
  if u == 0 then toString b ++ "B"
  else
    let n := rnd10 b (1024 ^ u)
    toString (n / 10) ++ "." ++ toString (n % 10) ++ (human_units.getD u "")

/-- Claim-side division count: the least u with b < 1024 ^ (u+1), capped at 4. -/
def divCountSpec (b : Nat) : Nat :=
  if b < 1024 then 0
  else if b < 1024 ^ 2 then 1
  else if b < 1024 ^ 3 then 2
  else if b < 1024 ^ 4 then 3
  else 4

/-- Possible shapes of the string produced by get_mod_time in src/display.c:
the fixed placeholder when localtime fails, the clock format
"Mon DD HH:MM", or the year format "Mon DD  YYYY". -/
inductive TimeFmt where
  | placeholder
  | clock
  | year
  deriving Repr, DecidableEq

/-- Embedding of the branch structure of get_mod_time from src/display.c.
now and mtime are the time_t inputs (difftime(now, mtime) = now - mtime,
exact for realistic ranges); convOk models localtime(&mtime) returning
non-NULL.  The cutoff constant 15778800 is the one in the C source. -/
def get_mod_time_fmt (now mtime : Int) (convOk : Bool) : TimeFmt :=
  let diff : Int := now - mtime
  if !convOk then TimeFmt.placeholder
  else if diff > 15778800 ∨ diff < 0 then TimeFmt.year
  else TimeFmt.clock

/-- Placeholder string emitted by get_mod_time when localtime fails. -/
def mod_time_placeholder : String := "??? ?? ??:??"

/-- Lexicographic comparison of character lists: the model of strcoll from
src/gls.c (byte-wise comparison, i.e. the C locale; every property proved
about it below — reflexivity on equal strings, antisymmetry, transitivity,
totality — holds for any strcoll collation). -/
def strcollChars : List Char → List Char → Ordering
  | [], [] => Ordering.eq
  | [], _ :: _ => Ordering.lt
  | _ :: _, [] => Ordering.gt
  | a :: as, b :: bs =>
    if a < b then Ordering.lt
    else if b < a then Ordering.gt
    else strcollChars as bs

/-- Model of strcoll on strings. -/
def strcoll (a b : String) : Ordering := strcollChars a.data b.data

/-- Embedding of the FileEntry struct of src/gls.h (name, mtime, stat
snapshot).  The extra followProbe field carries the filesystem's answer to
the stat(fullpath) call that print_file_entry performs at render time for
symlink entries (in C that answer comes from the ambient filesystem; the
model has no ambient state, so the oracle travels with the entry).  The
comparator and sort ignore it. -/
structure FileEntry where
  name : String
  mtime : Int
  st : StatRec
  followProbe : Option StatRec
  deriving Repr, DecidableEq

/-- Embedding of compare_entries from src/gls.c, returning an Ordering in
place of the C int sign (-1 ↦ lt, 0 ↦ eq, 1 ↦ gt).  When sort_by_time is
set, a strictly larger mtime sorts first; otherwise strcoll on names. -/
def compare_entries (sortByTime : Bool) (a b : FileEntry) : Ordering :=
  if sortByTime then
    if b.mtime < a.mtime then Ordering.lt
    else if a.mtime < b.mtime then Ordering.gt
    else strcoll a.name b.name
  else strcoll a.name b.name

/-- Boolean not-after relation induced by the comparator, used to hand the
comparator to the sort (qsort keeps a before b when the comparator is
nonpositive). -/
def entry_le (sortByTime : Bool) (a b : FileEntry) : Bool :=
  compare_entries sortByTime a b != Ordering.gt

/-- Sorting as performed by list_directory in src/gls.c: qsort with
compare_entries, modelled as a deterministic merge sort over the induced
relation. -/
def sort_entries (sortByTime : Bool) (l : List FileEntry) : List FileEntry :=
  l.mergeSort (entry_le sortByTime)

/-- One slot of the UID cache ring in src/gls.c (struct UidCache). -/
structure UidCacheEntry where
  uid : Nat
  name : String
  valid : Bool
  deriving Repr, DecidableEq

/-- State of the capacity-16 UID cache ring of src/gls.c: the 16 slots and
the next insertion index next_uid_slot. -/
structure UidCacheState where
  slots : Fin 16 → UidCacheEntry
  next : Fin 16

/-- Embedding of init_caches from src/gls.c restricted to the UID ring:
every slot invalid, insertion index 0 (static zero-initialisation). -/
def init_caches : UidCacheState :=
  { slots := fun _ => { uid := 0, name := "", valid := false }, next := 0 }

/-- Linear scan of the ring (the for loop of get_cached_username): the first
valid slot holding uid, if any. -/
def cache_find (s : UidCacheState) (uid : Nat) : Option (Fin 16) :=
  (List.finRange 16).find? (fun i => (s.slots i).valid && (s.slots i).uid == uid)

/-- Insertion of a freshly resolved name at the next ring slot, advancing the
index modulo the capacity (the three assignment statements plus
next_uid_slot = (next_uid_slot + 1) % CACHE_SIZE of the C miss path). -/
def cache_insert (lookupName : Nat → String) (s : UidCacheState) (uid : Nat) : UidCacheState :=
  { slots := Function.update s.slots s.next
      { uid := uid, name := lookupName uid, valid := true },
    next := s.next + 1 }

/-- Embedding of get_cached_username from src/gls.c.  The oracle lookupName
models the effectful miss path getpwuid + sanitize_string (or the decimal
fallback when getpwuid fails): a total function from uid to the printable
name that path produces.  The result triple is the returned name, the
cache state after the call, and whether the underlying system lookup
(getpwuid) was invoked. -/
def get_cached_username (lookupName : Nat → String) (s : UidCacheState) (uid : Nat) :
    String × UidCacheState × Bool :=
  match cache_find s uid with
  | some i => ((s.slots i).name, s, false)
  | none => (lookupName uid, cache_insert lookupName s uid, true)

/-- Folding a list of uid resolutions through the cache, keeping only the
final state (the sequence of get_cached_username calls a run performs). -/
def run_uids (lookupName : Nat → String) (s : UidCacheState) (us : List Nat) : UidCacheState :=
  us.foldl (fun st u => (get_cached_username lookupName st u).2.1) s


/-- Test of the C expression d_name[0] == (dot): whether the first byte of a
name is the hidden-file marker. -/
def startsWithDot (s : String) : Bool :=
  match s.data with
  | c :: _ => c == '.'
  | [] => false

/-- Name of the self pseudo-entry. -/
def dotName : String := "."

/-- Name of the parent pseudo-entry. -/
def dotDotName : String := ".."

/-- One raw readdir result together with the filesystem oracle's answers for
it: probe is the lstat(fullpath) outcome (none = failure) and followProbe
the stat(fullpath) outcome used at render time for symlinks. -/
structure DirEnt where
  name : String
  probe : Option StatRec
  followProbe : Option StatRec
  deriving Repr, DecidableEq

/-- Embedding of the readdir loop of list_directory in src/gls.c: skip the
pseudo-entries, skip hidden names unless show_all, skip entries whose
lstat fails, accumulate st_blocks of every surviving entry, and buffer the
surviving entries in readdir order.  Returns the buffered entries and the
accumulated stats.total_blocks. -/
def collect_entries (showAll : Bool) : List DirEnt → List FileEntry × Nat
  | [] => ([], 0)
  | e :: rest =>
    if e.name == dotName || e.name == dotDotName then collect_entries showAll rest
    else if !showAll && startsWithDot e.name then collect_entries showAll rest
    else
      match e.probe with
      | none => collect_entries showAll rest
      | some st =>
        let tail := collect_entries showAll rest
        ({ name := e.name, mtime := st.mtime, st := st, followProbe := e.followProbe } :: tail.1,
         st.blocks + tail.2)

/-- Claim-side retention test for one directory entry: not the self/parent
pseudo-entries, not hidden unless show_all. -/
def keeps (showAll : Bool) (name : String) : Prop :=
  name ≠ dotName ∧ name ≠ dotDotName ∧ (showAll = true ∨ startsWithDot name = false)

instance (showAll : Bool) (name : String) : Decidable (keeps showAll name) := by
  unfold keeps; infer_instance

/-- Embedding of the FileStats struct of src/gls.h. -/
structure FileStats where
  regular_files : Nat
  symlinks : Nat
  directories : Nat
  dir_symlinks : Nat
  total_blocks : Nat
  deriving Repr, DecidableEq

/-- Zero-initialised FileStats, as in FileStats stats = {0}. -/
def empty_stats : FileStats :=
  { regular_files := 0, symlinks := 0, directories := 0, dir_symlinks := 0, total_blocks := 0 }

/-- Embedding of the statistics update performed by print_file_entry in
src/display.c: for a symlink entry the render-time stat(fullpath) answer
(carried in followProbe) decides between dir_symlinks and symlinks; a
directory bumps directories, a regular file regular_files; anything else
leaves the stats unchanged. -/
def print_entry_stats (e : FileEntry) (stats : FileStats) : FileStats :=
  if S_ISLNK e.st.mode then
    if (match e.followProbe with
        | some t => S_ISDIR t.mode
        | none => false) then
      { stats with dir_symlinks := stats.dir_symlinks + 1 }
    else
      { stats with symlinks := stats.symlinks + 1 }
  else if S_ISDIR e.st.mode then { stats with directories := stats.directories + 1 }
  else if S_ISREG e.st.mode then { stats with regular_files := stats.regular_files + 1 }
  else stats

/-- Statistics after rendering a list of entries (the render loop of
list_directory folding print_file_entry over the sorted entries). -/
def render_stats (l : List FileEntry) (stats : FileStats) : FileStats :=
  l.foldl (fun st e => print_entry_stats e st) stats

/-- Observable output events of a run, abstracting the formatted lines the
program writes to stdout (field-level formatting is covered by the
formatter definitions above). -/
inductive OutEvent where
  | fileLine (path : String)
  | header (path : String)
  | totalLine (path : String) (value : Nat)
  | entryLine (path : String) (name : String)
  | blank
  | summary (regular : Nat) (dirs : Nat) (links : Nat) (dirLinks : Nat)
  deriving Repr, DecidableEq

/-- Embedding of the Options record fields consumed by the core
(src/unnamed options header: show_all and sort_by_time). -/
structure OptionsRec where
  show_all : Bool
  sort_by_time : Bool
  deriving Repr, DecidableEq

/-- One command-line target together with the filesystem oracle's answers
for it: probe1 is the classification lstat in main, probe2 the second
lstat performed for file targets just before rendering (the filesystem
may have changed in between), openResult the opendir outcome for
directory targets (none = failure) with the readdir stream on success. -/
structure Target where
  path : String
  probe1 : Option StatRec
  probe2 : Option StatRec
  openResult : Option (List DirEnt)
  deriving DecidableEq

/-- Embedding of the classification loop of main in src/gls.c: each target
whose lstat succeeds goes to the file list or the directory list
(preserving order); a failed lstat sets result = 1 and drops the target. -/
def classify_targets : List Target → List Target × List Target × Nat
  | [] => ([], [], 0)
  | t :: rest =>
    let tail := classify_targets rest
    match t.probe1 with
    | some st =>
      if S_ISDIR st.mode then (tail.1, t :: tail.2.1, tail.2.2)
      else (t :: tail.1, tail.2.1, tail.2.2)
    | none => (tail.1, tail.2.1, 1)

/-- Embedding of the file-target loop of main in src/gls.c: each file target
is lstat-ed a second time; on success one entry line is printed, on
failure nothing is printed and the exit status is left untouched. -/
def render_file_target (t : Target) : List OutEvent :=
  match t.probe2 with
  | some _ => [OutEvent.fileLine t.path]
  | none => []

/-- Embedding of list_directory from src/gls.c at the level of output
events: on opendir failure report status 1 with no stdout output (perror
goes to stderr); otherwise collect, print header (when requested) and the
block total in 1K units (total_blocks / 2 with C truncating division),
sort with compare_entries, render each entry, and print the summary
exactly when no header was requested. -/
def list_directory_run (opts : OptionsRec) (t : Target) (showHeader : Bool) :
    List OutEvent × Nat :=
  match t.openResult with
  | none => ([], 1)
  | some contents =>
    let collected := collect_entries opts.show_all contents
    let sorted := sort_entries opts.sort_by_time collected.1
    let finalStats := render_stats sorted { empty_stats with total_blocks := collected.2 }
    ((if showHeader then [OutEvent.header t.path] else []) ++
     [OutEvent.totalLine t.path (collected.2 / 2)] ++
     sorted.map (fun e => OutEvent.entryLine t.path e.name) ++
     (if showHeader then []
      else [OutEvent.summary finalStats.regular_files finalStats.directories
              finalStats.symlinks finalStats.dir_symlinks]),
     0)

/-- Embedding of the directory loop of main in src/gls.c: a blank separator
line before every directory block except when neither a file target nor a
previous directory was rendered; each nonzero list_directory status
overwrites result. -/
def render_dir_targets (opts : OptionsRec) (showHeaders : Bool) :
    Bool → List Target → List OutEvent × Nat
  | _, [] => ([], 0)
  | needBlank, d :: rest =>
    let this := list_directory_run opts d showHeaders
    let tail := render_dir_targets opts showHeaders true rest
    ((if needBlank then [OutEvent.blank] else []) ++ this.1 ++ tail.1,
     if this.2 ≠ 0 ∨ tail.2 ≠ 0 then 1 else 0)

/-- Embedding of main from src/gls.c over an operand list: classify the
targets, render the file targets first, then the directory targets
(headers exactly when more than one directory or at least one file), and
return the stdout events with the process exit status. -/
def main_run (opts : OptionsRec) (targets : List Target) : List OutEvent × Nat :=
  let classified := classify_targets targets
  let files := classified.1
  let dirs := classified.2.1
  let showHeaders := dirs.length > 1 || files.length > 0
  let fileEvents := files.flatMap render_file_target
  let dirResult := render_dir_targets opts showHeaders (files.length > 0) dirs
  (fileEvents ++ dirResult.1,
   if classified.2.2 ≠ 0 ∨ dirResult.2 ≠ 0 then 1 else 0)

/-- Bridge between the C bit-mask test and Nat.testBit: masking with a power
of two is nonzero exactly on the corresponding bit. -/
theorem and_pow_bne (m n : Nat) : (m &&& 2 ^ n != 0) = m.testBit n := by
  rw [Nat.and_two_pow]
  cases h : m.testBit n <;> simp

theorem irusr_bit (m : Nat) : (m &&& S_IRUSR != 0) = m.testBit 8 := by
  have h := and_pow_bne m 8
  norm_num [S_IRUSR] at h ⊢
  exact h

theorem iwusr_bit (m : Nat) : (m &&& S_IWUSR != 0) = m.testBit 7 := by
  have h := and_pow_bne m 7
  norm_num [S_IWUSR] at h ⊢
  exact h

theorem ixusr_bit (m : Nat) : (m &&& S_IXUSR != 0) = m.testBit 6 := by
  have h := and_pow_bne m 6
  norm_num [S_IXUSR] at h ⊢
  exact h

theorem irgrp_bit (m : Nat) : (m &&& S_IRGRP != 0) = m.testBit 5 := by
  have h := and_pow_bne m 5
  norm_num [S_IRGRP] at h ⊢
  exact h

theorem iwgrp_bit (m : Nat) : (m &&& S_IWGRP != 0) = m.testBit 4 := by
  have h := and_pow_bne m 4
  norm_num [S_IWGRP] at h ⊢
  exact h

theorem ixgrp_bit (m : Nat) : (m &&& S_IXGRP != 0) = m.testBit 3 := by
  have h := and_pow_bne m 3
  norm_num [S_IXGRP] at h ⊢
  exact h

theorem iroth_bit (m : Nat) : (m &&& S_IROTH != 0) = m.testBit 2 := by
  have h := and_pow_bne m 2
  norm_num [S_IROTH] at h ⊢
  exact h

theorem iwoth_bit (m : Nat) : (m &&& S_IWOTH != 0) = m.testBit 1 := by
  have h := and_pow_bne m 1
  norm_num [S_IWOTH] at h ⊢
  exact h

theorem ixoth_bit (m : Nat) : (m &&& S_IXOTH != 0) = m.testBit 0 := by
  have h := and_pow_bne m 0
  norm_num [S_IXOTH] at h ⊢
  exact h

theorem isuid_bit (m : Nat) : (m &&& S_ISUID != 0) = m.testBit 11 := by
  have h := and_pow_bne m 11
  norm_num [S_ISUID] at h ⊢
  exact h

theorem isgid_bit (m : Nat) : (m &&& S_ISGID != 0) = m.testBit 10 := by
  have h := and_pow_bne m 10
  norm_num [S_ISGID] at h ⊢
  exact h

theorem isvtx_bit (m : Nat) : (m &&& S_ISVTX != 0) = m.testBit 9 := by
  have h := and_pow_bne m 9
  norm_num [S_ISVTX] at h ⊢
  exact h

/-- C1 (amended): the permission string has exactly 10 characters; position 0
encodes the entry type with d, l, c, b, p, s for directory, symlink,
character device, block device, fifo and socket, and a dash for a regular
file and for every other/unknown type (the formatter never produces a
question mark); positions 1-9 encode the owner/group/other
read-write-execute triplets; the execute positions 3, 6, 9 show a
lowercase s/s/t when the corresponding special bit (set-user-id,
set-group-id, sticky) is set together with the execute bit and an
uppercase S/S/T when the special bit is set without the execute bit. -/
theorem get_permissions_spec_amended (mode : Nat) :
    (get_permissions mode).length = 10 ∧
    (S_ISDIR mode = true → (get_permissions mode).data[0]? = some 'd') ∧
    (S_ISLNK mode = true → (get_permissions mode).data[0]? = some 'l') ∧
    (S_ISCHR mode = true → (get_permissions mode).data[0]? = some 'c') ∧
    (S_ISBLK mode = true → (get_permissions mode).data[0]? = some 'b') ∧
    (S_ISFIFO mode = true → (get_permissions mode).data[0]? = some 'p') ∧
    (S_ISSOCK mode = true → (get_permissions mode).data[0]? = some 's') ∧
    (S_ISDIR mode = false → S_ISLNK mode = false → S_ISCHR mode = false →
      S_ISBLK mode = false → S_ISFIFO mode = false → S_ISSOCK mode = false →
      (get_permissions mode).data[0]? = some '-') ∧
    (S_ISREG mode = true → (get_permissions mode).data[0]? = some '-') ∧
    (get_permissions mode).data[1]? = some (if mode.testBit 8 then 'r' else '-') ∧
    (get_permissions mode).data[2]? = some (if mode.testBit 7 then 'w' else '-') ∧
    (get_permissions mode).data[3]? =
      some (if mode.testBit 11 then (if mode.testBit 6 then 's' else 'S')
            else (if mode.testBit 6 then 'x' else '-')) ∧
    (get_permissions mode).data[4]? = some (if mode.testBit 5 then 'r' else '-') ∧
    (get_permissions mode).data[5]? = some (if mode.testBit 4 then 'w' else '-') ∧
    (get_permissions mode).data[6]? =
      some (if mode.testBit 10 then (if mode.testBit 3 then 's' else 'S')
            else (if mode.testBit 3 then 'x' else '-')) ∧
    (get_permissions mode).data[7]? = some (if mode.testBit 2 then 'r' else '-') ∧
    (get_permissions mode).data[8]? = some (if mode.testBit 1 then 'w' else '-') ∧
    (get_permissions mode).data[9]? =
      some (if mode.testBit 9 then (if mode.testBit 0 then 't' else 'T')
            else (if mode.testBit 0 then 'x' else '-')) := by
  refine ⟨rfl, ?_, ?_, ?_, ?_, ?_, ?_, ?_, ?_, ?_, ?_, ?_, ?_, ?_, ?_, ?_, ?_, ?_⟩
  · intro h
    simp [get_permissions, h]
  · intro h
    have hm : mode &&& S_IFMT = S_IFLNK := by simpa [S_ISLNK] using h
    have h1 : S_ISDIR mode = false := by simp only [S_ISDIR, hm]; decide
    simp [get_permissions, h1, h]
  · intro h
    have hm : mode &&& S_IFMT = S_IFCHR := by simpa [S_ISCHR] using h
    have h1 : S_ISDIR mode = false := by simp only [S_ISDIR, hm]; decide
    have h2 : S_ISLNK mode = false := by simp only [S_ISLNK, hm]; decide
    simp [get_permissions, h1, h2, h]
  · intro h
    have hm : mode &&& S_IFMT = S_IFBLK := by simpa [S_ISBLK] using h
    have h1 : S_ISDIR mode = false := by simp only [S_ISDIR, hm]; decide
    have h2 : S_ISLNK mode = false := by simp only [S_ISLNK, hm]; decide
    have h3 : S_ISCHR mode = false := by simp only [S_ISCHR, hm]; decide
    simp [get_permissions, h1, h2, h3, h]
  · intro h
    have hm : mode &&& S_IFMT = S_IFIFO := by simpa [S_ISFIFO] using h
    have h1 : S_ISDIR mode = false := by simp only [S_ISDIR, hm]; decide
    have h2 : S_ISLNK mode = false := by simp only [S_ISLNK, hm]; decide
    have h3 : S_ISCHR mode = false := by simp only [S_ISCHR, hm]; decide
    have h4 : S_ISBLK mode = false := by simp only [S_ISBLK, hm]; decide
    simp [get_permissions, h1, h2, h3, h4, h]
  · intro h
    have hm : mode &&& S_IFMT = S_IFSOCK := by simpa [S_ISSOCK] using h
    have h1 : S_ISDIR mode = false := by simp only [S_ISDIR, hm]; decide
    have h2 : S_ISLNK mode = false := by simp only [S_ISLNK, hm]; decide
    have h3 : S_ISCHR mode = false := by simp only [S_ISCHR, hm]; decide
    have h4 : S_ISBLK mode = false := by simp only [S_ISBLK, hm]; decide
    have h5 : S_ISFIFO mode = false := by simp only [S_ISFIFO, hm]; decide
    simp [get_permissions, h1, h2, h3, h4, h5, h]
  · intro h1 h2 h3 h4 h5 h6
    simp [get_permissions, h1, h2, h3, h4, h5, h6]
  · intro h
    have hm : mode &&& S_IFMT = S_IFREG := by simpa [S_ISREG] using h
    have h1 : S_ISDIR mode = false := by simp only [S_ISDIR, hm]; decide
    have h2 : S_ISLNK mode = false := by simp only [S_ISLNK, hm]; decide
    have h3 : S_ISCHR mode = false := by simp only [S_ISCHR, hm]; decide
    have h4 : S_ISBLK mode = false := by simp only [S_ISBLK, hm]; decide
    have h5 : S_ISFIFO mode = false := by simp only [S_ISFIFO, hm]; decide
    have h6 : S_ISSOCK mode = false := by simp only [S_ISSOCK, hm]; decide
    simp [get_permissions, h1, h2, h3, h4, h5, h6]
  · simp [get_permissions, irusr_bit]
  · simp [get_permissions, iwusr_bit]
  · simp [get_permissions, isuid_bit, ixusr_bit]
  · simp [get_permissions, irgrp_bit]
  · simp [get_permissions, iwgrp_bit]
  · simp [get_permissions, isgid_bit, ixgrp_bit]
  · simp [get_permissions, iroth_bit]
  · simp [get_permissions, iwoth_bit]
  · simp [get_permissions, isvtx_bit, ixoth_bit]

/-- C1 counterexample: mode 0 has none of the seven known file types, so per
the claim its position 0 should be a question mark, but get_permissions
renders a dash (the formatter has no question-mark branch at all). -/
theorem get_permissions_no_unknown_marker :
    (S_ISDIR 0 = false ∧ S_ISLNK 0 = false ∧ S_ISCHR 0 = false ∧ S_ISBLK 0 = false ∧
     S_ISFIFO 0 = false ∧ S_ISSOCK 0 = false ∧ S_ISREG 0 = false) ∧
    (get_permissions 0).data[0]? = some '-' ∧ ('-' : Char) ≠ '?' := by
  decide

/-- Witness for the amended C1 theorem at the concrete mode 0o104755 (setuid
regular file with owner execute): position 0 is a dash and position 3 a
lowercase s. -/
theorem get_permissions_spec_witness :
    (get_permissions 0o104755).data[0]? = some '-' ∧
    (get_permissions 0o104755).data[3]? = some 's' := by
  refine ⟨(get_permissions_spec_amended 0o104755).2.2.2.2.2.2.2.2.1 (by decide), ?_⟩
  have h := (get_permissions_spec_amended 0o104755).2.2.2.2.2.2.2.2.2.2.2.1
  simpa using h

/-- Characterization of the human_size division loop: the number of divisions
performed is the least u with b < 1024 ^ (u + 1), capped at 4. -/
theorem human_size_loop_eq (b : Nat) : human_size_loop 4 b 0 = divCountSpec b := by
  have q1 : (1024 ≤ b / 1024) ↔ 1048576 ≤ b := by
    rw [Nat.le_div_iff_mul_le (by norm_num : (0:Nat) < 1024)]
  have q2 : (1024 ≤ b / 1024 / 1024) ↔ 1073741824 ≤ b := by
    rw [Nat.div_div_eq_div_mul, Nat.le_div_iff_mul_le (by norm_num : (0:Nat) < 1024 * 1024)]
  have q3 : (1024 ≤ b / 1024 / 1024 / 1024) ↔ 1099511627776 ≤ b := by
    rw [Nat.div_div_eq_div_mul, Nat.div_div_eq_div_mul,
        Nat.le_div_iff_mul_le (by norm_num : (0:Nat) < 1024 * 1024 * 1024)]
  have hds : divCountSpec b =
      if b < 1024 then 0 else if b < 1048576 then 1 else if b < 1073741824 then 2
      else if b < 1099511627776 then 3 else 4 := by
    norm_num [divCountSpec]
  rw [hds]
  by_cases h1 : 1024 ≤ b
  · by_cases h2 : 1048576 ≤ b
    · by_cases h3 : 1073741824 ≤ b
      · by_cases h4 : 1099511627776 ≤ b
        · have m1 : ¬ b < 1024 := by omega
          have m2 : ¬ b < 1048576 := by omega
          have m3 : ¬ b < 1073741824 := by omega
          have m4 : ¬ b < 1099511627776 := by omega
          simp [human_size_loop, h1, q1.mpr h2, q2.mpr h3, q3.mpr h4, m1, m2, m3, m4]
        · have n4 : ¬ 1024 ≤ b / 1024 / 1024 / 1024 := by rw [q3]; omega
          have m1 : ¬ b < 1024 := by omega
          have m2 : ¬ b < 1048576 := by omega
          have m3 : ¬ b < 1073741824 := by omega
          have m4 : b < 1099511627776 := by omega
          simp [human_size_loop, h1, q1.mpr h2, q2.mpr h3, n4, m1, m2, m3, m4]
      · have n3 : ¬ 1024 ≤ b / 1024 / 1024 := by rw [q2]; omega
        have m1 : ¬ b < 1024 := by omega
        have m2 : ¬ b < 1048576 := by omega
        have m3 : b < 1073741824 := by omega
        simp [human_size_loop, h1, q1.mpr h2, n3, m1, m2, m3]
    · have n2 : ¬ 1024 ≤ b / 1024 := by rw [q1]; omega
      have m1 : ¬ b < 1024 := by omega
      have m2 : b < 1048576 := by omega
      simp [human_size_loop, h1, n2, m1, m2]
  · have m1 : b < 1024 := by omega
    simp [human_size_loop, h1, m1]

/-- Positivity of the division count above the first threshold. -/
theorem divCountSpec_pos (b : Nat) (h : 1024 ≤ b) : divCountSpec b ≠ 0 := by
  unfold divCountSpec
  split_ifs <;> omega

/-- C2: the human-readable size formatter divides by 1024 while the quantity
is at least 1024 and fewer than 4 divisions have occurred (the division
count is the least u with b < 1024 ^ (u + 1), capped at 4), selects the
unit suffix B, K, M, G, T by that count, formats with no decimal digits at
the B unit and exactly one decimal digit at every other unit, and maps the
claimed example inputs 0, 1023, 1024, 1536, 1073741824 to the claimed
strings. -/
theorem human_size_spec (b : Nat) :
    human_size_loop 4 b 0 = divCountSpec b ∧
    (b < 1024 → human_size b = toString b ++ "B") ∧
    (1024 ≤ b → ∃ q d, d < 10 ∧
      human_size b = toString q ++ "." ++ toString d ++ (human_units.getD (divCountSpec b) "") ∧
      10 * q + d = rnd10 b (1024 ^ divCountSpec b)) ∧
    (human_size 0 = "0B" ∧ human_size 1023 = "1023B" ∧ human_size 1024 = "1.0K" ∧
      human_size 1536 = "1.5K" ∧ human_size 1073741824 = "1.0G") := by
  refine ⟨human_size_loop_eq b, ?_, ?_, by decide⟩
  · intro h
    simp [human_size, human_size_loop_eq, divCountSpec, h]
  · intro h
    have hne := divCountSpec_pos b h
    refine ⟨rnd10 b (1024 ^ divCountSpec b) / 10, rnd10 b (1024 ^ divCountSpec b) % 10,
      Nat.mod_lt _ (by norm_num), ?_, Nat.div_add_mod _ 10⟩
    simp [human_size, human_size_loop_eq, hne]

/-- Witness for the C2 theorem at the concrete byte counts 500 and 2048. -/
theorem human_size_spec_witness :
    human_size 500 = "500B" ∧
    (∃ q d, d < 10 ∧
      human_size 2048 = toString q ++ "." ++ toString d ++
        (human_units.getD (divCountSpec 2048) "") ∧
      10 * q + d = rnd10 2048 (1024 ^ divCountSpec 2048)) :=
  ⟨(human_size_spec 500).2.1 (by norm_num), (human_size_spec 2048).2.2.1 (by norm_num)⟩

/-- C3 (amended): the time-field formatter is a pure function of (mtime, now)
and the conversion outcome: it chooses the clock format exactly when the
age now - mtime is non-negative and at most 15,778,800 seconds
(inclusive), and the year format otherwise; in particular a timestamp
exactly 15,778,800 seconds in the past uses the clock format, a timestamp
one second older uses the year format, any timestamp strictly in the
future uses the year format, and a failed time conversion yields the
fixed placeholder. -/
theorem get_mod_time_spec_amended (now mtime : Int) (convOk : Bool) :
    (get_mod_time_fmt now mtime convOk = TimeFmt.clock ↔
      convOk = true ∧ 0 ≤ now - mtime ∧ now - mtime ≤ 15778800) ∧
    (get_mod_time_fmt now mtime convOk = TimeFmt.year ↔
      convOk = true ∧ (15778800 < now - mtime ∨ now - mtime < 0)) ∧
    (get_mod_time_fmt now mtime convOk = TimeFmt.placeholder ↔ convOk = false) ∧
    (convOk = true → now - mtime = 15778800 →
      get_mod_time_fmt now mtime convOk = TimeFmt.clock) ∧
    (convOk = true → now - mtime = 15778801 →
      get_mod_time_fmt now mtime convOk = TimeFmt.year) ∧
    (convOk = true → now - mtime < 0 →
      get_mod_time_fmt now mtime convOk = TimeFmt.year) := by
  unfold get_mod_time_fmt
  cases convOk
  · simp
  · by_cases h : now - mtime > 15778800 ∨ now - mtime < 0
    · simp only [Bool.not_true, Bool.false_eq_true, if_false, if_pos h]
      simp [h]
      and_intros <;> omega
    · simp only [Bool.not_true, Bool.false_eq_true, if_false, if_neg h]
      simp [h]
      and_intros <;> omega

/-- C3 counterexample: with a successful conversion and an age of exactly
15,778,800 seconds the formatter picks the clock format, not the year
format the claim requires. -/
theorem get_mod_time_boundary_counterexample :
    get_mod_time_fmt 15778800 0 true = TimeFmt.clock ∧ TimeFmt.clock ≠ TimeFmt.year := by
  decide

/-- Witness for the amended C3 theorem: at age 15,778,801 seconds with a
successful conversion the year format is chosen. -/
theorem get_mod_time_spec_witness : get_mod_time_fmt 15778801 0 true = TimeFmt.year :=
  (get_mod_time_spec_amended 15778801 0 true).2.2.2.2.1 rfl (by norm_num)

/-- Equality characterization of the strcoll model: the comparison returns
eq exactly on identical character lists. -/
theorem strcollChars_eq_iff : ∀ as bs, strcollChars as bs = Ordering.eq ↔ as = bs := by
  intro as
  induction as with
  | nil => intro bs; cases bs <;> simp [strcollChars]
  | cons a as ih =>
    intro bs
    cases bs with
    | nil => simp [strcollChars]
    | cons b bs =>
      simp only [strcollChars]
      by_cases h1 : a < b
      · rw [if_pos h1]
        simp only [List.cons.injEq]
        constructor
        · intro h; exact Ordering.noConfusion h
        · rintro ⟨rfl, -⟩; exact absurd h1 (lt_irrefl a)
      · by_cases h2 : b < a
        · rw [if_neg h1, if_pos h2]
          simp only [List.cons.injEq]
          constructor
          · intro h; exact Ordering.noConfusion h
          · rintro ⟨rfl, -⟩; exact absurd h2 (lt_irrefl a)
        · have hab : a = b := le_antisymm (le_of_not_lt h2) (le_of_not_lt h1)
          subst hab
          rw [if_neg h1, if_neg h2]
          simp [ih bs]

theorem strcollChars_swap : ∀ as bs, strcollChars as bs = (strcollChars bs as).swap := by
  intro as
  induction as with
  | nil => intro bs; cases bs <;> simp [strcollChars, Ordering.swap]
  | cons a as ih =>
    intro bs
    cases bs with
    | nil => simp [strcollChars, Ordering.swap]
    | cons b bs =>
      simp only [strcollChars]
      by_cases h1 : a < b
      · rw [if_pos h1, if_neg (lt_asymm h1), if_pos h1]; rfl
      · by_cases h2 : b < a
        · rw [if_neg h1, if_pos h2, if_pos h2]; rfl
        · rw [if_neg h1, if_neg h2, if_neg h2, if_neg h1]; exact ih bs

theorem strcollChars_lt_trans :
    ∀ as bs cs, strcollChars as bs = Ordering.lt → strcollChars bs cs = Ordering.lt →
      strcollChars as cs = Ordering.lt := by
  intro as
  induction as with
  | nil =>
    intro bs cs h1 h2
    cases bs with
    | nil => simp [strcollChars] at h1
    | cons b bs =>
      cases cs with
      | nil => simp [strcollChars] at h2
      | cons c cs => simp [strcollChars]
  | cons a as ih =>
    intro bs cs h1 h2
    cases bs with
    | nil => simp [strcollChars] at h1
    | cons b bs =>
      cases cs with
      | nil => simp [strcollChars] at h2
      | cons c cs =>
        simp only [strcollChars] at h1 h2 ⊢
        by_cases hab : a < b
        · by_cases hbc : b < c
          · rw [if_pos (lt_trans hab hbc)]
          · by_cases hcb : c < b
            · rw [if_neg hbc, if_pos hcb] at h2; exact Ordering.noConfusion h2
            · have heq : b = c := le_antisymm (le_of_not_lt hcb) (le_of_not_lt hbc)
              subst heq
              rw [if_pos hab]
        · by_cases hba : b < a
          · rw [if_neg hab, if_pos hba] at h1; exact Ordering.noConfusion h1
          · have heq : a = b := le_antisymm (le_of_not_lt hba) (le_of_not_lt hab)
            subst heq
            rw [if_neg hab, if_neg hba] at h1
            by_cases hac : a < c
            · rw [if_pos hac]
            · by_cases hca : c < a
              · rw [if_neg hac, if_pos hca] at h2; exact Ordering.noConfusion h2
              · have heq2 : a = c := le_antisymm (le_of_not_lt hca) (le_of_not_lt hac)
                subst heq2
                rw [if_neg hac, if_neg hca] at h2 ⊢
                exact ih bs cs h1 h2

theorem strcoll_eq_iff (a b : String) : strcoll a b = Ordering.eq ↔ a = b := by
  unfold strcoll
  rw [strcollChars_eq_iff]
  constructor
  · exact fun h => String.ext h
  · rintro rfl; rfl

theorem strcoll_swap (a b : String) : strcoll a b = (strcoll b a).swap :=
  strcollChars_swap a.data b.data

theorem strcoll_lt_trans (a b c : String) :
    strcoll a b = Ordering.lt → strcoll b c = Ordering.lt → strcoll a c = Ordering.lt :=
  strcollChars_lt_trans a.data b.data c.data

theorem compare_entries_true_def (a b : FileEntry) :
    compare_entries true a b =
      (if b.mtime < a.mtime then Ordering.lt
       else if a.mtime < b.mtime then Ordering.gt
       else strcoll a.name b.name) := by
  simp [compare_entries]

theorem compare_entries_false_def (a b : FileEntry) :
    compare_entries false a b = strcoll a.name b.name := by
  simp [compare_entries]

theorem compare_entries_eq_iff_time (a b : FileEntry) :
    compare_entries true a b = Ordering.eq ↔ a.mtime = b.mtime ∧ a.name = b.name := by
  rw [compare_entries_true_def]
  by_cases h1 : b.mtime < a.mtime
  · rw [if_pos h1]
    constructor
    · intro h; exact Ordering.noConfusion h
    · rintro ⟨he, -⟩; omega
  · by_cases h2 : a.mtime < b.mtime
    · rw [if_neg h1, if_pos h2]
      constructor
      · intro h; exact Ordering.noConfusion h
      · rintro ⟨he, -⟩; omega
    · have hm : a.mtime = b.mtime := le_antisymm (le_of_not_lt h1) (le_of_not_lt h2)
      rw [if_neg h1, if_neg h2]
      rw [strcoll_eq_iff]
      simp [hm]

theorem compare_entries_swap (m : Bool) (a b : FileEntry) :
    compare_entries m a b = (compare_entries m b a).swap := by
  cases m
  · rw [compare_entries_false_def, compare_entries_false_def]
    exact strcoll_swap a.name b.name
  · rw [compare_entries_true_def, compare_entries_true_def]
    rcases lt_trichotomy a.mtime b.mtime with h | h | h
    · rw [if_neg (by omega : ¬ b.mtime < a.mtime), if_pos h, if_pos h]; rfl
    · rw [if_neg (by omega : ¬ b.mtime < a.mtime), if_neg (by omega : ¬ a.mtime < b.mtime),
          if_neg (by omega : ¬ a.mtime < b.mtime), if_neg (by omega : ¬ b.mtime < a.mtime)]
      exact strcoll_swap a.name b.name
    · rw [if_pos h, if_neg (by omega : ¬ a.mtime < b.mtime), if_pos h]; rfl

theorem compare_entries_lt_trans (m : Bool) (a b c : FileEntry) :
    compare_entries m a b = Ordering.lt → compare_entries m b c = Ordering.lt →
      compare_entries m a c = Ordering.lt := by
  cases m
  · rw [compare_entries_false_def, compare_entries_false_def, compare_entries_false_def]
    exact strcoll_lt_trans a.name b.name c.name
  · rw [compare_entries_true_def, compare_entries_true_def, compare_entries_true_def]
    intro h1 h2
    by_cases hba : b.mtime < a.mtime
    · by_cases hcb : c.mtime < b.mtime
      · rw [if_pos (lt_trans hcb hba)]
      · by_cases hbc : b.mtime < c.mtime
        · rw [if_neg hcb, if_pos hbc] at h2; exact Ordering.noConfusion h2
        · have heq : b.mtime = c.mtime := le_antisymm (le_of_not_lt hcb) (le_of_not_lt hbc)
          rw [if_pos (by omega : c.mtime < a.mtime)]
    · by_cases hab : a.mtime < b.mtime
      · rw [if_neg hba, if_pos hab] at h1; exact Ordering.noConfusion h1
      · have heq : a.mtime = b.mtime := le_antisymm (le_of_not_lt hba) (le_of_not_lt hab)
        rw [if_neg hba, if_neg hab] at h1
        by_cases hcb : c.mtime < b.mtime
        · rw [if_pos (by omega : c.mtime < a.mtime)]
        · by_cases hbc : b.mtime < c.mtime
          · rw [if_neg hcb, if_pos hbc] at h2; exact Ordering.noConfusion h2
          · have heq2 : b.mtime = c.mtime := le_antisymm (le_of_not_lt hcb) (le_of_not_lt hbc)
            rw [if_neg hcb, if_neg hbc] at h2
            rw [if_neg (by omega : ¬ c.mtime < a.mtime), if_neg (by omega : ¬ a.mtime < c.mtime)]
            exact strcoll_lt_trans a.name b.name c.name h1 h2

theorem compare_entries_eq_keys (m : Bool) (a b : FileEntry)
    (h : compare_entries m a b = Ordering.eq) :
    a.name = b.name ∧ (m = true → a.mtime = b.mtime) := by
  cases m
  · rw [compare_entries_false_def] at h
    exact ⟨(strcoll_eq_iff a.name b.name).mp h, fun hx => Bool.noConfusion hx⟩
  · obtain ⟨hm, hn⟩ := (compare_entries_eq_iff_time a b).mp h
    exact ⟨hn, fun _ => hm⟩

theorem compare_entries_congr_left (m : Bool) {a b : FileEntry}
    (h : compare_entries m a b = Ordering.eq) (c : FileEntry) :
    compare_entries m a c = compare_entries m b c := by
  obtain ⟨hn, hm⟩ := compare_entries_eq_keys m a b h
  cases m
  · rw [compare_entries_false_def, compare_entries_false_def, hn]
  · rw [compare_entries_true_def, compare_entries_true_def, hn, hm rfl]

theorem compare_entries_congr_right (m : Bool) {b c : FileEntry}
    (h : compare_entries m b c = Ordering.eq) (a : FileEntry) :
    compare_entries m a b = compare_entries m a c := by
  obtain ⟨hn, hm⟩ := compare_entries_eq_keys m b c h
  cases m
  · rw [compare_entries_false_def, compare_entries_false_def, hn]
  · rw [compare_entries_true_def, compare_entries_true_def, hn, hm rfl]

theorem ordering_cases (o : Ordering) : o = Ordering.lt ∨ o = Ordering.eq ∨ o = Ordering.gt := by
  cases o <;> simp

theorem entry_le_trans (m : Bool) (a b c : FileEntry) :
    entry_le m a b = true → entry_le m b c = true → entry_le m a c = true := by
  intro h1 h2
  rcases ordering_cases (compare_entries m a b) with hab | hab | hab
  · rcases ordering_cases (compare_entries m b c) with hbc | hbc | hbc
    · unfold entry_le
      rw [compare_entries_lt_trans m a b c hab hbc]
      decide
    · unfold entry_le
      rw [← compare_entries_congr_right m hbc a, hab]
      decide
    · exfalso
      unfold entry_le at h2
      rw [hbc] at h2
      exact absurd h2 (by decide)
  · unfold entry_le at h2 ⊢
    rw [compare_entries_congr_left m hab c]
    exact h2
  · exfalso
    unfold entry_le at h1
    rw [hab] at h1
    exact absurd h1 (by decide)

theorem entry_le_total (m : Bool) (a b : FileEntry) :
    (entry_le m a b || entry_le m b a) = true := by
  unfold entry_le
  rcases ordering_cases (compare_entries m a b) with hab | hab | hab
  · rw [hab]; simp only [Bool.or_eq_true]; exact Or.inl (by decide)
  · rw [hab]; simp only [Bool.or_eq_true]; exact Or.inl (by decide)
  · rw [compare_entries_swap m b a, hab]
    decide

theorem sort_entries_idem (m : Bool) (l : List FileEntry) :
    sort_entries m (sort_entries m l) = sort_entries m l := by
  unfold sort_entries
  exact List.mergeSort_of_sorted
    (List.sorted_mergeSort (entry_le_trans m) (entry_le_total m) l)

/-- C4 (amended): in name mode the comparator returns eq whenever the two
names are identical, whatever the modification times; in time mode the
primary key is modification time descending with the name comparison as
tie-break, so the comparator returns eq exactly when both the times and
the names agree (identical names with different times do not compare
equal); the order is total and deterministic (the comparison of swapped
arguments is the swapped comparison) and sorting twice produces the same
order under either mode. -/
theorem compare_entries_spec_amended :
    (∀ a b : FileEntry, a.name = b.name → compare_entries false a b = Ordering.eq) ∧
    (∀ a b : FileEntry, a.name = b.name → a.mtime = b.mtime →
      compare_entries true a b = Ordering.eq) ∧
    (∀ a b : FileEntry, compare_entries true a b = Ordering.eq ↔
      a.mtime = b.mtime ∧ a.name = b.name) ∧
    (∀ a b : FileEntry, b.mtime < a.mtime → compare_entries true a b = Ordering.lt) ∧
    (∀ a b : FileEntry, a.mtime = b.mtime →
      compare_entries true a b = strcoll a.name b.name) ∧
    (∀ (m : Bool) (a b : FileEntry), compare_entries m a b = (compare_entries m b a).swap) ∧
    (∀ (m : Bool) (l : List FileEntry), sort_entries m (sort_entries m l) = sort_entries m l) := by
  refine ⟨?_, ?_, compare_entries_eq_iff_time, ?_, ?_, compare_entries_swap, sort_entries_idem⟩
  · intro a b h
    rw [compare_entries_false_def, h]
    exact (strcoll_eq_iff _ _).mpr rfl
  · intro a b hn hm
    exact (compare_entries_eq_iff_time a b).mpr ⟨hm, hn⟩
  · intro a b h
    rw [compare_entries_true_def, if_pos h]
  · intro a b h
    rw [compare_entries_true_def, if_neg (by omega), if_neg (by omega)]

/-- C4 counterexample: two entries with the identical name but different
modification times compare strictly (newest first) in time mode, not
equal as the claim asserts for both modes. -/
theorem compare_entries_identical_names_counterexample :
    compare_entries true
      { name := "a", mtime := 1,
        st := { mode := 0, nlink := 0, uid := 0, gid := 0, size := 0, mtime := 1, blocks := 0 },
        followProbe := none }
      { name := "a", mtime := 0,
        st := { mode := 0, nlink := 0, uid := 0, gid := 0, size := 0, mtime := 0, blocks := 0 },
        followProbe := none } = Ordering.lt ∧
    Ordering.lt ≠ Ordering.eq := by
  decide

/-- Witness for the amended C4 theorem at concrete entries: identical names
compare equal in name mode even with different times, and identical
names with identical times compare equal in time mode. -/
theorem compare_entries_spec_witness :
    compare_entries false
      { name := "x", mtime := 5,
        st := { mode := 0, nlink := 0, uid := 0, gid := 0, size := 0, mtime := 5, blocks := 0 },
        followProbe := none }
      { name := "x", mtime := 7,
        st := { mode := 0, nlink := 0, uid := 0, gid := 0, size := 0, mtime := 7, blocks := 0 },
        followProbe := none } = Ordering.eq ∧
    compare_entries true
      { name := "y", mtime := 3,
        st := { mode := 0, nlink := 0, uid := 0, gid := 0, size := 0, mtime := 3, blocks := 0 },
        followProbe := none }
      { name := "y", mtime := 3,
        st := { mode := 1, nlink := 0, uid := 0, gid := 0, size := 0, mtime := 3, blocks := 0 },
        followProbe := none } = Ordering.eq :=
  ⟨compare_entries_spec_amended.1 _ _ rfl, compare_entries_spec_amended.2.1 _ _ rfl rfl⟩

theorem get_cached_username_hit {f : Nat → String} {s : UidCacheState} {uid : Nat} {i : Fin 16}
    (h : cache_find s uid = some i) :
    get_cached_username f s uid = ((s.slots i).name, s, false) := by
  unfold get_cached_username
  rw [h]

theorem get_cached_username_miss {f : Nat → String} {s : UidCacheState} {uid : Nat}
    (h : cache_find s uid = none) :
    get_cached_username f s uid = (f uid, cache_insert f s uid, true) := by
  unfold get_cached_username
  rw [h]

theorem cache_insert_slots (f : Nat → String) (s : UidCacheState) (uid : Nat) (i : Fin 16) :
    (cache_insert f s uid).slots i =
      if i = s.next then { uid := uid, name := f uid, valid := true } else s.slots i := by
  unfold cache_insert
  exact Function.update_apply s.slots s.next _ i

theorem cache_find_pred {s : UidCacheState} {uid : Nat} {i : Fin 16}
    (h : cache_find s uid = some i) :
    (s.slots i).valid = true ∧ (s.slots i).uid = uid := by
  have hp := List.find?_some h
  simp only [Bool.and_eq_true, beq_iff_eq] at hp
  exact hp

theorem cache_find_none {s : UidCacheState} {uid : Nat} (h : cache_find s uid = none)
    (i : Fin 16) : ¬((s.slots i).valid = true ∧ (s.slots i).uid = uid) := by
  have := List.find?_eq_none.mp h i (List.mem_finRange i)
  simp only [Bool.and_eq_true, beq_iff_eq] at this
  exact this

theorem cache_find_of_entry (s : UidCacheState) {uid : Nat} (j : Fin 16)
    (hj : (s.slots j).valid = true ∧ (s.slots j).uid = uid) :
    ∃ i, cache_find s uid = some i ∧
      (s.slots i).valid = true ∧ (s.slots i).uid = uid := by
  cases hf : cache_find s uid with
  | none => exact absurd hj (cache_find_none hf j)
  | some i => exact ⟨i, rfl, cache_find_pred hf⟩

/-- After a miss-insert, the only slot whose uid matches is the one just
written, so any subsequent hit returns the freshly looked-up name. -/
theorem cache_find_after_insert {s : UidCacheState} {uid : Nat} (f : Nat → String)
    (h : cache_find s uid = none) {i : Fin 16}
    (hi : cache_find (cache_insert f s uid) uid = some i) :
    ((cache_insert f s uid).slots i).name = f uid := by
  have hp := cache_find_pred hi
  rw [cache_insert_slots] at hp ⊢
  by_cases he : i = s.next
  · rw [if_pos he]
  · rw [if_neg he] at hp ⊢
    exact absurd hp (cache_find_none h i)

/-- Second resolution of the same uid in direct succession never invokes the
underlying lookup and returns the same (cached) name. -/
theorem resolve_again (f : Nat → String) (s : UidCacheState) (uid : Nat) :
    (get_cached_username f (get_cached_username f s uid).2.1 uid).2.2 = false ∧
    (get_cached_username f (get_cached_username f s uid).2.1 uid).1 =
      (get_cached_username f s uid).1 := by
  cases hf : cache_find s uid with
  | some i =>
    rw [get_cached_username_hit hf]
    show (get_cached_username f s uid).2.2 = false ∧
      (get_cached_username f s uid).1 = (s.slots i).name
    rw [get_cached_username_hit hf]
    exact ⟨rfl, rfl⟩
  | none =>
    rw [get_cached_username_miss hf]
    show (get_cached_username f (cache_insert f s uid) uid).2.2 = false ∧
      (get_cached_username f (cache_insert f s uid) uid).1 = f uid
    obtain ⟨i, hfind, -⟩ := cache_find_of_entry (cache_insert f s uid) s.next
      (by rw [cache_insert_slots, if_pos rfl]; exact ⟨rfl, rfl⟩)
    rw [get_cached_username_hit hfind]
    exact ⟨rfl, cache_find_after_insert f hf hfind⟩

theorem run_uids_append (f : Nat → String) (s : UidCacheState) (us : List Nat) (u : Nat) :
    run_uids f s (us ++ [u]) = (get_cached_username f (run_uids f s us) u).2.1 := by
  simp [run_uids, List.foldl_append]

/-- Invalid slot value used by init_caches. -/
def invalid_slot : UidCacheEntry := { uid := 0, name := "", valid := false }

/-- After resolving at most 16 pairwise-distinct uids from the initial cache,
slot i holds the i-th uid (looked up once) for i below the count, every
other slot is still invalid, and the insertion index is the count modulo
the capacity. -/
theorem run_uids_invariant (f : Nat → String) :
    ∀ us : List Nat, us.Nodup → us.length ≤ 16 →
      ((run_uids f init_caches us).next = (us.length : Fin 16)) ∧
      (∀ i : Fin 16, (run_uids f init_caches us).slots i =
        if h : (i : Nat) < us.length
        then { uid := us.get ⟨i, h⟩, name := f (us.get ⟨i, h⟩), valid := true }
        else invalid_slot) := by
  intro us
  induction us using List.reverseRecOn with
  | nil =>
    intro _ _
    constructor
    · show (0 : Fin 16) = ((0 : Nat) : Fin 16)
      simp
    · intro i
      show invalid_slot = _
      rw [dif_neg (by simp)]
  | append_singleton ws u ih =>
    intro hnd hlen
    rw [List.nodup_append] at hnd
    obtain ⟨hndw, -, hdisj⟩ := hnd
    have hnotin : u ∉ ws := fun hu => hdisj hu (by simp)
    rw [List.length_append] at hlen
    simp only [List.length_singleton] at hlen
    obtain ⟨ihn, ihs⟩ := ih hndw (by omega)
    have hmiss : cache_find (run_uids f init_caches ws) u = none := by
      apply List.find?_eq_none.mpr
      intro i _
      rw [ihs i]
      by_cases h : (i : Nat) < ws.length
      · rw [dif_pos h]
        simp only [Bool.and_eq_true, beq_iff_eq, not_and]
        intro _ he
        exact hnotin (he ▸ List.get_mem ws (i : Nat) h)
      · rw [dif_neg h]
        simp [invalid_slot]
    rw [run_uids_append, get_cached_username_miss hmiss]
    have hval : ((run_uids f init_caches ws).next : Nat) = ws.length := by
      rw [ihn, Fin.val_natCast]
      omega
    constructor
    · show (run_uids f init_caches ws).next + 1 = _
      apply Fin.ext
      rw [Fin.val_add, hval, Fin.val_natCast, List.length_append]
      simp only [List.length_singleton]
      omega
    · intro i
      show (cache_insert f (run_uids f init_caches ws) u).slots i = _
      rw [cache_insert_slots]
      by_cases he : i = (run_uids f init_caches ws).next
      · rw [if_pos he]
        have hi : (i : Nat) = ws.length := by rw [he, hval]
        have hlt : (i : Nat) < (ws ++ [u]).length := by
          rw [List.length_append]; simp; omega
        rw [dif_pos hlt]
        have hg : (ws ++ [u]).get ⟨(i : Nat), hlt⟩ = u := by
          rw [List.get_eq_getElem]
          rw [List.getElem_append_right (by omega : ws.length ≤ (i : Nat))]
          simp [hi]
        rw [hg]
      · rw [if_neg he]
        have hine : (i : Nat) ≠ ws.length := by
          intro hx
          exact he (Fin.ext (by rw [hval, hx]))
        rw [ihs i]
        by_cases h : (i : Nat) < ws.length
        · rw [dif_pos h, dif_pos (by rw [List.length_append]; simp; omega)]
          have hg : (ws ++ [u]).get ⟨(i : Nat), by rw [List.length_append]; simp; omega⟩ =
              ws.get ⟨(i : Nat), h⟩ := by
            rw [List.get_eq_getElem, List.get_eq_getElem]
            exact List.getElem_append_left h
          rw [hg]
        · rw [dif_neg h, dif_neg (by rw [List.length_append]; simp; omega)]

theorem get_cached_username_miss_state {f : Nat → String} {s : UidCacheState} {uid : Nat}
    (h : cache_find s uid = none) :
    (get_cached_username f s uid).2.1 = cache_insert f s uid := by
  rw [get_cached_username_miss h]

/-- A uid absent from a fresh pairwise-distinct run is not found in the
resulting cache. -/
theorem cache_find_fresh_none (f : Nat → String) (ws : List Nat) (hndw : ws.Nodup)
    (hl : ws.length ≤ 16) {u : Nat} (hnotin : u ∉ ws) :
    cache_find (run_uids f init_caches ws) u = none := by
  obtain ⟨-, ihs⟩ := run_uids_invariant f ws hndw hl
  apply List.find?_eq_none.mpr
  intro i _
  rw [ihs i]
  by_cases h : (i : Nat) < ws.length
  · rw [dif_pos h]
    simp only [Bool.and_eq_true, beq_iff_eq, not_and]
    intro _ he
    exact hnotin (he ▸ List.get_mem ws (i : Nat) h)
  · rw [dif_neg h]
    simp [invalid_slot]

theorem head?_eq_get {α : Type} (l : List α) (a : α) (h : l.head? = some a)
    (hl : 0 < l.length) : l.get ⟨0, hl⟩ = a := by
  cases l with
  | nil => cases h
  | cons x t => simpa using h

/-- After resolving 17 pairwise-distinct uids from the initial cache, the
first uid has been evicted: resolving it again invokes the underlying
lookup. -/
theorem run_17_evicts (f : Nat → String) (us : List Nat) (hnd : us.Nodup)
    (hlen : us.length = 17) (u0 : Nat) (h0 : us.head? = some u0) :
    (get_cached_username f (run_uids f init_caches us) u0).2.2 = true := by
  have hne : us ≠ [] := by intro h; rw [h] at hlen; simp at hlen
  have hsplit : us.dropLast ++ [us.getLast hne] = us := List.dropLast_append_getLast hne
  have hwl : us.dropLast.length = 16 := by rw [List.length_dropLast, hlen]
  have hnd2 := hnd
  rw [← hsplit, List.nodup_append] at hnd2
  obtain ⟨hndw, -, hdisj⟩ := hnd2
  have hlast_notin : us.getLast hne ∉ us.dropLast := fun hin => hdisj hin (by simp)
  obtain ⟨ihn, ihs⟩ := run_uids_invariant f us.dropLast hndw (by omega)
  have hmiss16 := cache_find_fresh_none f us.dropLast hndw (by omega) hlast_notin
  have hstep := run_uids_append f init_caches us.dropLast (us.getLast hne)
  rw [hsplit, get_cached_username_miss_state hmiss16] at hstep
  have h2 := head?_eq_get us u0 h0 (by omega)
  have hnext0 : (run_uids f init_caches us.dropLast).next = (0 : Fin 16) := by
    rw [ihn, hwl]
    apply Fin.ext
    rw [Fin.val_natCast]
    rfl
  have hmissF : cache_find
      (cache_insert f (run_uids f init_caches us.dropLast) (us.getLast hne)) u0 = none := by
    apply List.find?_eq_none.mpr
    intro i _
    rw [cache_insert_slots]
    by_cases he : i = (run_uids f init_caches us.dropLast).next
    · rw [if_pos he]
      simp only [Bool.and_eq_true, beq_iff_eq, not_and]
      intro _ hequ
      have h1 : us.getLast hne = us.get ⟨16, by omega⟩ := by
        have h16 : us.length - 1 = 16 := by omega
        rw [List.getLast_eq_getElem, List.get_eq_getElem]
        simp [h16]
      have hik : (⟨16, by omega⟩ : Fin us.length) = ⟨0, by omega⟩ :=
        hnd.get_inj_iff.mp ((h1.symm.trans hequ).trans h2.symm)
      have : (16 : Nat) = 0 := congrArg Fin.val hik
      omega
    · rw [if_neg he]
      rw [ihs i]
      by_cases h : (i : Nat) < us.dropLast.length
      · rw [dif_pos h]
        simp only [Bool.and_eq_true, beq_iff_eq, not_and]
        intro _ hequ
        have hgd : us.dropLast.get ⟨(i : Nat), h⟩ = us.get ⟨(i : Nat), by omega⟩ := by
          rw [List.get_eq_getElem, List.get_eq_getElem]
          exact List.getElem_dropLast us (i : Nat) h
        have hik : (⟨(i : Nat), by omega⟩ : Fin us.length) = ⟨0, by omega⟩ :=
          hnd.get_inj_iff.mp ((hgd.symm.trans hequ).trans h2.symm)
        have hiv : (i : Nat) = 0 := congrArg Fin.val hik
        apply he
        rw [hnext0]
        exact Fin.ext hiv
      · rw [dif_neg h]
        simp [invalid_slot]
  rw [hstep, get_cached_username_miss hmissF]

/-- C5: resolving the same numeric id twice in succession never invokes the
underlying system lookup a second time and returns the cached name; and
the capacity-16 ring evicts in pure FIFO slot order: after resolving 17
pairwise-distinct ids from the initial cache, the first id's entry has
been overwritten, so resolving the first id again invokes the underlying
lookup. -/
theorem uid_cache_spec :
    (∀ (f : Nat → String) (s : UidCacheState) (uid : Nat),
      (get_cached_username f (get_cached_username f s uid).2.1 uid).2.2 = false ∧
      (get_cached_username f (get_cached_username f s uid).2.1 uid).1 =
        (get_cached_username f s uid).1) ∧
    (∀ (f : Nat → String) (us : List Nat), us.Nodup → us.length = 17 →
      ∀ u0, us.head? = some u0 →
        (get_cached_username f (run_uids f init_caches us) u0).2.2 = true) :=
  ⟨resolve_again, fun f us hnd hlen u0 h0 => run_17_evicts f us hnd hlen u0 h0⟩

/-- Witness for the C5 theorem: with the decimal-fallback oracle, resolving
ids 0..16 from the fresh cache and then id 0 again re-invokes the lookup,
and an immediate repeat of id 42 on the fresh cache does not. -/
theorem uid_cache_spec_witness :
    (get_cached_username (fun u => toString u) (run_uids (fun u => toString u) init_caches
        [0, 1, 2, 3, 4, 5, 6, 7, 8, 9, 10, 11, 12, 13, 14, 15, 16]) 0).2.2 = true ∧
    (get_cached_username (fun u => toString u)
        (get_cached_username (fun u => toString u) init_caches 42).2.1 42).2.2 = false :=
  ⟨uid_cache_spec.2 (fun u => toString u) _ (by decide) (by decide) 0 rfl,
   (uid_cache_spec.1 (fun u => toString u) init_caches 42).1⟩

/-- Filter-and-sum characterization of the collector loop, proved by
induction over the readdir stream. -/
theorem collect_entries_characterization (showAll : Bool) (dir : List DirEnt) :
    (collect_entries showAll dir).1 = dir.filterMap (fun e =>
      if keeps showAll e.name
      then e.probe.map (fun st =>
        { name := e.name, mtime := st.mtime, st := st, followProbe := e.followProbe })
      else none) ∧
    (collect_entries showAll dir).2 =
      (((collect_entries showAll dir).1).map (fun fe => fe.st.blocks)).sum := by
  induction dir with
  | nil => exact ⟨rfl, rfl⟩
  | cons e rest ih =>
    obtain ⟨ih1, ih2⟩ := ih
    by_cases h1 : (e.name == dotName || e.name == dotDotName) = true
    · have hk : ¬ keeps showAll e.name := by
        simp only [Bool.or_eq_true, beq_iff_eq] at h1
        rcases h1 with h | h <;> simp [keeps, h]
      refine ⟨?_, ?_⟩
      · simp [collect_entries, h1, List.filterMap_cons, hk, ih1]
      · simp [collect_entries, h1, ih2]
    · by_cases h2 : (!showAll && startsWithDot e.name) = true
      · have hk : ¬ keeps showAll e.name := by
          simp only [Bool.and_eq_true, Bool.not_eq_true'] at h2
          simp [keeps, h2.1, h2.2]
        refine ⟨?_, ?_⟩
        · simp [collect_entries, h1, h2, List.filterMap_cons, hk, ih1]
        · simp [collect_entries, h1, h2, ih2]
      · have hk : keeps showAll e.name := by
          simp only [Bool.or_eq_true, beq_iff_eq] at h1
          push_neg at h1
          refine ⟨h1.1, h1.2, ?_⟩
          cases hsa : showAll
          · right
            simpa [hsa] using h2
          · exact Or.inl rfl
        cases hp : e.probe with
        | none =>
          refine ⟨?_, ?_⟩
          · simp [collect_entries, h1, h2, hp, List.filterMap_cons, hk, ih1]
          · simp [collect_entries, h1, h2, hp, ih2]
        | some st =>
          refine ⟨?_, ?_⟩
          · simp [collect_entries, h1, h2, hp, List.filterMap_cons, hk, ih1]
          · simp [collect_entries, h1, h2, hp, ih2]

/-- C6: for every directory stream, the collector returns exactly those
entries that are not the pseudo-entries "." and "..", whose name does not
begin with a dot unless show_hidden is set, and whose link-aware metadata
probe succeeds (a probe failure skips only that entry); and the
accumulated block total equals the sum of the block counts of exactly
those retained, successfully probed entries — the hidden filter runs
before the probe, so filtered-out entries contribute nothing. -/
theorem collect_entries_spec (showAll : Bool) (dir : List DirEnt) :
    (collect_entries showAll dir).1 = dir.filterMap (fun e =>
      if keeps showAll e.name
      then e.probe.map (fun st =>
        { name := e.name, mtime := st.mtime, st := st, followProbe := e.followProbe })
      else none) ∧
    (collect_entries showAll dir).2 =
      (((collect_entries showAll dir).1).map (fun fe => fe.st.blocks)).sum :=
  collect_entries_characterization showAll dir

/-- One render-step changes the two symlink counters together by exactly the
symlink indicator of the entry. -/
theorem print_entry_stats_symlink_sum (e : FileEntry) (stats : FileStats) :
    (print_entry_stats e stats).dir_symlinks + (print_entry_stats e stats).symlinks =
      stats.dir_symlinks + stats.symlinks + (if S_ISLNK e.st.mode then 1 else 0) := by
  unfold print_entry_stats
  split_ifs <;> simp <;> omega

theorem render_stats_cons (e : FileEntry) (rest : List FileEntry) (stats : FileStats) :
    render_stats (e :: rest) stats = render_stats rest (print_entry_stats e stats) := by
  simp [render_stats]

/-- Folding the render-time statistics update over a list adds exactly the
number of symlink entries to the combined symlink counters. -/
theorem render_stats_symlink_sum (l : List FileEntry) :
    ∀ stats : FileStats,
      (render_stats l stats).dir_symlinks + (render_stats l stats).symlinks =
        stats.dir_symlinks + stats.symlinks +
          (l.filter (fun e => S_ISLNK e.st.mode)).length := by
  induction l with
  | nil => intro stats; simp [render_stats]
  | cons e rest ih =>
    intro stats
    rw [render_stats_cons, ih (print_entry_stats e stats), List.filter_cons]
    have h2 := print_entry_stats_symlink_sum e stats
    by_cases hl : S_ISLNK e.st.mode = true
    · simp only [hl, if_pos] at h2 ⊢
      simp [List.length_cons]
      omega
    · simp only [Bool.not_eq_true] at hl
      simp [hl] at h2 ⊢
      omega

/-- C9: when rendering an entry whose link-aware metadata says it is a
symlink, the statistics count it as a directory-symlink exactly when the
follow-the-link probe of its full path succeeds and reports a directory;
every other symlink — including a broken one whose follow probe fails —
is counted as a plain symlink; entries that are not symlinks leave both
counters alone, so over any rendered entry list the two counters sum to
the number of symlink entries rendered. -/
theorem symlink_stats_spec :
    (∀ (e : FileEntry) (stats : FileStats), S_ISLNK e.st.mode = true →
      ((∃ t, e.followProbe = some t ∧ S_ISDIR t.mode = true) →
        (print_entry_stats e stats).dir_symlinks = stats.dir_symlinks + 1 ∧
        (print_entry_stats e stats).symlinks = stats.symlinks) ∧
      ((∀ t, e.followProbe = some t → S_ISDIR t.mode = false) →
        (print_entry_stats e stats).symlinks = stats.symlinks + 1 ∧
        (print_entry_stats e stats).dir_symlinks = stats.dir_symlinks) ∧
      (print_entry_stats e stats).dir_symlinks + (print_entry_stats e stats).symlinks =
        stats.dir_symlinks + stats.symlinks + 1) ∧
    (∀ (e : FileEntry) (stats : FileStats), S_ISLNK e.st.mode = false →
      (print_entry_stats e stats).dir_symlinks = stats.dir_symlinks ∧
      (print_entry_stats e stats).symlinks = stats.symlinks) ∧
    (∀ (l : List FileEntry) (stats : FileStats),
      (render_stats l stats).dir_symlinks + (render_stats l stats).symlinks =
        stats.dir_symlinks + stats.symlinks +
          (l.filter (fun e => S_ISLNK e.st.mode)).length) := by
  refine ⟨?_, ?_, fun l stats => render_stats_symlink_sum l stats⟩
  · intro e stats hl
    refine ⟨?_, ?_, ?_⟩
    · rintro ⟨t, hfp, hdir⟩
      simp [print_entry_stats, hl, hfp, hdir]
    · intro hall
      cases hfp : e.followProbe with
      | none => simp [print_entry_stats, hl, hfp]
      | some t =>
        have := hall t hfp
        simp [print_entry_stats, hl, hfp, this]
    · have := print_entry_stats_symlink_sum e stats
      rw [if_pos hl] at this
      exact this
  · intro e stats hl
    have hs := print_entry_stats_symlink_sum e stats
    unfold print_entry_stats
    rw [if_neg (by simp [hl])]
    split_ifs <;> simp

/-- Witness for the C9 theorem: a broken symlink (follow probe fails) bumps
the plain symlink counter and leaves the directory-symlink counter. -/
theorem symlink_stats_spec_witness :
    (print_entry_stats
        { name := "b", mtime := 0,
          st := { mode := 0o120777, nlink := 1, uid := 0, gid := 0, size := 0, mtime := 0,
                  blocks := 0 },
          followProbe := none } empty_stats).symlinks = empty_stats.symlinks + 1 ∧
    (print_entry_stats
        { name := "b", mtime := 0,
          st := { mode := 0o120777, nlink := 1, uid := 0, gid := 0, size := 0, mtime := 0,
                  blocks := 0 },
          followProbe := none } empty_stats).dir_symlinks = empty_stats.dir_symlinks :=
  (symlink_stats_spec.1
    { name := "b", mtime := 0,
      st := { mode := 0o120777, nlink := 1, uid := 0, gid := 0, size := 0, mtime := 0,
              blocks := 0 },
      followProbe := none } empty_stats (by decide)).2.1 (fun t ht => nomatch ht)

/-- Claim-side failure predicate for one target: the classification lstat
failed, or the target classified as a directory and its opendir failed. -/
def target_failed (t : Target) : Prop :=
  t.probe1 = none ∨ ∃ st, t.probe1 = some st ∧ S_ISDIR st.mode = true ∧ t.openResult = none

theorem classify_result_cases :
    ∀ ts : List Target, (classify_targets ts).2.2 = 0 ∨ (classify_targets ts).2.2 = 1 := by
  intro ts
  induction ts with
  | nil => exact Or.inl rfl
  | cons t rest ih =>
    cases hp : t.probe1 with
    | some st =>
      by_cases hd : S_ISDIR st.mode <;> simp [classify_targets, hp, hd] <;> exact ih
    | none => simp [classify_targets, hp]

theorem classify_result_one_iff :
    ∀ ts : List Target, (classify_targets ts).2.2 = 1 ↔ ∃ t ∈ ts, t.probe1 = none := by
  intro ts
  induction ts with
  | nil => simp [classify_targets]
  | cons t rest ih =>
    cases hp : t.probe1 with
    | some st =>
      by_cases hd : S_ISDIR st.mode <;> simp [classify_targets, hp, hd, ih]
    | none =>
      simp [classify_targets, hp]

theorem mem_classify_dirs_iff :
    ∀ (ts : List Target) (t : Target),
      t ∈ (classify_targets ts).2.1 ↔
      t ∈ ts ∧ ∃ st, t.probe1 = some st ∧ S_ISDIR st.mode = true := by
  intro ts t
  induction ts with
  | nil => simp [classify_targets]
  | cons u rest ih =>
    cases hp : u.probe1 with
    | some st =>
      by_cases hd : S_ISDIR st.mode = true
      · simp only [classify_targets, hp]
        rw [if_pos hd]
        simp only [List.mem_cons]
        constructor
        · rintro (rfl | h)
          · exact ⟨Or.inl rfl, st, hp, hd⟩
          · obtain ⟨hmem, hcl⟩ := ih.mp h
            exact ⟨Or.inr hmem, hcl⟩
        · rintro ⟨rfl | hmem, hcl⟩
          · exact Or.inl rfl
          · exact Or.inr (ih.mpr ⟨hmem, hcl⟩)
      · simp only [classify_targets, hp]
        rw [if_neg hd]
        simp only [List.mem_cons]
        constructor
        · intro h
          obtain ⟨hmem, hcl⟩ := ih.mp h
          exact ⟨Or.inr hmem, hcl⟩
        · rintro ⟨rfl | hmem, hcl⟩
          · obtain ⟨st2, hp2, hd2⟩ := hcl
            rw [hp] at hp2
            cases hp2
            exact absurd hd2 hd
          · exact ih.mpr ⟨hmem, hcl⟩
    | none =>
      simp only [classify_targets, hp, List.mem_cons]
      constructor
      · intro h
        obtain ⟨hmem, hcl⟩ := ih.mp h
        exact ⟨Or.inr hmem, hcl⟩
      · rintro ⟨rfl | hmem, hcl⟩
        · obtain ⟨st2, hp2, -⟩ := hcl
          rw [hp] at hp2
          cases hp2
        · exact ih.mpr ⟨hmem, hcl⟩

theorem mem_classify_files_iff :
    ∀ (ts : List Target) (t : Target),
      t ∈ (classify_targets ts).1 ↔
      t ∈ ts ∧ ∃ st, t.probe1 = some st ∧ S_ISDIR st.mode = false := by
  intro ts t
  induction ts with
  | nil => simp [classify_targets]
  | cons u rest ih =>
    cases hp : u.probe1 with
    | some st =>
      by_cases hd : S_ISDIR st.mode = true
      · simp only [classify_targets, hp]
        rw [if_pos hd]
        constructor
        · intro h
          obtain ⟨hmem, hcl⟩ := ih.mp h
          exact ⟨List.mem_cons_of_mem u hmem, hcl⟩
        · rintro ⟨hmem, hcl⟩
          rcases List.mem_cons.mp hmem with rfl | hmem2
          · obtain ⟨st2, hp2, hd2⟩ := hcl
            rw [hp] at hp2
            cases hp2
            rw [hd] at hd2
            cases hd2
          · exact ih.mpr ⟨hmem2, hcl⟩
      · simp only [classify_targets, hp]
        rw [if_neg hd]
        simp only [List.mem_cons]
        constructor
        · rintro (rfl | h)
          · exact ⟨Or.inl rfl, st, hp, Bool.not_eq_true _ ▸ eq_false_of_ne_true hd⟩
          · obtain ⟨hmem, hcl⟩ := ih.mp h
            exact ⟨Or.inr hmem, hcl⟩
        · rintro ⟨rfl | hmem, hcl⟩
          · exact Or.inl rfl
          · exact Or.inr (ih.mpr ⟨hmem, hcl⟩)
    | none =>
      simp only [classify_targets, hp, List.mem_cons]
      constructor
      · intro h
        obtain ⟨hmem, hcl⟩ := ih.mp h
        exact ⟨Or.inr hmem, hcl⟩
      · rintro ⟨rfl | hmem, hcl⟩
        · obtain ⟨st2, hp2, -⟩ := hcl
          rw [hp] at hp2
          cases hp2
        · exact ih.mpr ⟨hmem, hcl⟩

theorem list_directory_run_status (opts : OptionsRec) (t : Target) (sh : Bool) :
    (list_directory_run opts t sh).2 = if t.openResult = none then 1 else 0 := by
  cases ho : t.openResult with
  | none => simp [list_directory_run, ho]
  | some c => simp [list_directory_run, ho]

theorem render_dir_targets_cons (opts : OptionsRec) (sh nb : Bool) (d : Target)
    (rest : List Target) :
    render_dir_targets opts sh nb (d :: rest) =
      ((if nb then [OutEvent.blank] else []) ++ (list_directory_run opts d sh).1 ++
        (render_dir_targets opts sh true rest).1,
       if (list_directory_run opts d sh).2 ≠ 0 ∨ (render_dir_targets opts sh true rest).2 ≠ 0
       then 1 else 0) := rfl

theorem render_dirs_result :
    ∀ (opts : OptionsRec) (sh : Bool) (ds : List Target) (nb : Bool),
      ((render_dir_targets opts sh nb ds).2 = 0 ∨ (render_dir_targets opts sh nb ds).2 = 1) ∧
      ((render_dir_targets opts sh nb ds).2 = 1 ↔ ∃ d ∈ ds, d.openResult = none) := by
  intro opts sh ds
  induction ds with
  | nil => intro nb; simp [render_dir_targets]
  | cons d rest ih =>
    intro nb
    obtain ⟨ihc, ihi⟩ := ih true
    have h2 : (render_dir_targets opts sh nb (d :: rest)).2 =
        if (list_directory_run opts d sh).2 ≠ 0 ∨ (render_dir_targets opts sh true rest).2 ≠ 0
        then 1 else 0 := rfl
    rw [h2, list_directory_run_status opts d sh]
    by_cases ho : d.openResult = none
    · constructor
      · exact Or.inr (by simp [ho])
      · constructor
        · intro _
          exact ⟨d, List.mem_cons_self d rest, ho⟩
        · intro _
          simp [ho]
    · rcases ihc with h0 | h1
      · constructor
        · exact Or.inl (by simp [ho, h0])
        · constructor
          · intro hx
            rw [if_neg (by simp [ho, h0])] at hx
            cases hx
          · rintro ⟨x, hx, hxo⟩
            rcases List.mem_cons.mp hx with rfl | hx2
            · exact absurd hxo ho
            · have := ihi.mpr ⟨x, hx2, hxo⟩
              omega
      · constructor
        · exact Or.inr (by simp [h1])
        · constructor
          · intro _
            obtain ⟨x, hx, hxo⟩ := ihi.mp h1
            exact ⟨x, List.mem_cons_of_mem d hx, hxo⟩
          · intro _
            simp [h1]

theorem main_run_exit (opts : OptionsRec) (ts : List Target) :
    ((main_run opts ts).2 = 0 ∨ (main_run opts ts).2 = 1) ∧
    ((main_run opts ts).2 = 1 ↔ ∃ t ∈ ts, target_failed t) := by
  have hsplit : ∀ sh nb : Bool,
      ((if (classify_targets ts).2.2 ≠ 0 ∨
          (render_dir_targets opts sh nb (classify_targets ts).2.1).2 ≠ 0
        then 1 else 0) = 0 ∨
       (if (classify_targets ts).2.2 ≠ 0 ∨
          (render_dir_targets opts sh nb (classify_targets ts).2.1).2 ≠ 0
        then 1 else 0) = 1) ∧
      ((if (classify_targets ts).2.2 ≠ 0 ∨
          (render_dir_targets opts sh nb (classify_targets ts).2.1).2 ≠ 0
        then 1 else 0) = 1 ↔ ∃ t ∈ ts, target_failed t) := by
    intro sh nb
    obtain ⟨hrc, hri⟩ := render_dirs_result opts sh (classify_targets ts).2.1 nb
    have hc := classify_result_cases ts
    have hci := classify_result_one_iff ts
    by_cases hcond : ((classify_targets ts).2.2 ≠ 0 ∨
        (render_dir_targets opts sh nb (classify_targets ts).2.1).2 ≠ 0)
    · rw [if_pos hcond]
      refine ⟨Or.inr rfl, fun _ => ?_, fun _ => rfl⟩
      rcases hcond with h | h
      · have h1 : (classify_targets ts).2.2 = 1 := by rcases hc with h0 | h0 <;> omega
        obtain ⟨t, ht, hp⟩ := hci.mp h1
        exact ⟨t, ht, Or.inl hp⟩
      · have h1 : (render_dir_targets opts sh nb (classify_targets ts).2.1).2 = 1 := by
          rcases hrc with h0 | h0 <;> omega
        obtain ⟨d, hd, ho⟩ := hri.mp h1
        obtain ⟨hmem, st, hp, hdir⟩ := (mem_classify_dirs_iff ts d).mp hd
        exact ⟨d, hmem, Or.inr ⟨st, hp, hdir, ho⟩⟩
    · rw [if_neg hcond]
      push_neg at hcond
      refine ⟨Or.inl rfl, fun h => absurd h (by decide), fun hex => ?_⟩
      exfalso
      obtain ⟨t, ht, hf⟩ := hex
      rcases hf with hp | ⟨st, hp, hdir, ho⟩
      · have := hci.mpr ⟨t, ht, hp⟩
        omega
      · have hd : t ∈ (classify_targets ts).2.1 :=
          (mem_classify_dirs_iff ts t).mpr ⟨ht, st, hp, hdir⟩
        have := hri.mpr ⟨t, hd, ho⟩
        omega
  exact hsplit _ _

theorem totalLine_mem_list_directory_run (opts : OptionsRec) (t : Target) (sh : Bool)
    (c : List DirEnt) (ho : t.openResult = some c) :
    OutEvent.totalLine t.path ((collect_entries opts.show_all c).2 / 2) ∈
      (list_directory_run opts t sh).1 := by
  simp [list_directory_run, ho]

theorem totalLine_mem_render_dirs (opts : OptionsRec) (sh : Bool) :
    ∀ (ds : List Target) (nb : Bool) (d : Target) (c : List DirEnt),
      d ∈ ds → d.openResult = some c →
      OutEvent.totalLine d.path ((collect_entries opts.show_all c).2 / 2) ∈
        (render_dir_targets opts sh nb ds).1 := by
  intro ds
  induction ds with
  | nil =>
    intro nb d c hd
    cases hd
  | cons d0 rest ih =>
    intro nb d c hd ho
    rw [render_dir_targets_cons]
    rcases List.mem_cons.mp hd with rfl | hd2
    · exact List.mem_append_left _
        (List.mem_append_right _ (totalLine_mem_list_directory_run opts d sh c ho))
    · exact List.mem_append_right _ (ih true d c hd2 ho)

theorem totalLine_mem_main_run (opts : OptionsRec) (ts : List Target) (t : Target)
    (st : StatRec) (c : List DirEnt) :
    t ∈ ts → t.probe1 = some st → S_ISDIR st.mode = true → t.openResult = some c →
    OutEvent.totalLine t.path ((collect_entries opts.show_all c).2 / 2) ∈
      (main_run opts ts).1 := by
  intro ht hp hd ho
  have hm : t ∈ (classify_targets ts).2.1 := (mem_classify_dirs_iff ts t).mpr ⟨ht, st, hp, hd⟩
  exact List.mem_append_right _ (totalLine_mem_render_dirs opts _ _ _ t c hm ho)

theorem fileLine_mem_main_run (opts : OptionsRec) (ts : List Target) (t : Target)
    (st st2 : StatRec) :
    t ∈ ts → t.probe1 = some st → S_ISDIR st.mode = false → t.probe2 = some st2 →
    OutEvent.fileLine t.path ∈ (main_run opts ts).1 := by
  intro ht hp hd hp2
  have hf : t ∈ (classify_targets ts).1 := (mem_classify_files_iff ts t).mpr ⟨ht, st, hp, hd⟩
  have hmem : OutEvent.fileLine t.path ∈ ((classify_targets ts).1).flatMap render_file_target :=
    List.mem_flatMap.mpr ⟨t, hf, by simp [render_file_target, hp2]⟩
  exact List.mem_append_left _ hmem

/-- C7: the process exit status is 1 exactly when at least one target's
classification probe failed or a directory-classified target's opendir
failed, and 0 otherwise; and a failure on one target never suppresses the
output of the others: every file-classified target whose render-time
probe succeeds still contributes its line and every directory-classified
target that opens still contributes its listing (witnessed by its block
total line). -/
theorem main_exit_spec (opts : OptionsRec) (ts : List Target) :
    ((main_run opts ts).2 = 0 ∨ (main_run opts ts).2 = 1) ∧
    ((main_run opts ts).2 = 1 ↔ ∃ t ∈ ts, target_failed t) ∧
    ((main_run opts ts).2 = 0 ↔ ∀ t ∈ ts, ¬ target_failed t) ∧
    (∀ t ∈ ts, ∀ st, t.probe1 = some st → S_ISDIR st.mode = false →
      ∀ st2, t.probe2 = some st2 → OutEvent.fileLine t.path ∈ (main_run opts ts).1) ∧
    (∀ t ∈ ts, ∀ st, t.probe1 = some st → S_ISDIR st.mode = true →
      ∀ c, t.openResult = some c →
        OutEvent.totalLine t.path ((collect_entries opts.show_all c).2 / 2) ∈
          (main_run opts ts).1) := by
  obtain ⟨hc, hi⟩ := main_run_exit opts ts
  refine ⟨hc, hi, ?_, ?_, ?_⟩
  · constructor
    · intro h0
      intro t ht hf
      have h1 := hi.mpr ⟨t, ht, hf⟩
      omega
    · intro hall
      rcases hc with h | h
      · exact h
      · obtain ⟨t, ht, hf⟩ := hi.mp h
        exact absurd hf (hall t ht)
  · intro t ht st hp hd st2 hp2
    exact fileLine_mem_main_run opts ts t st st2 ht hp hd hp2
  · intro t ht st hp hd c ho
    exact totalLine_mem_main_run opts ts t st c ht hp hd ho

/-- Witness for the C7 theorem: one unprobeable target plus one healthy
directory target give exit status 1 while the directory's total line is
still emitted. -/
theorem main_exit_spec_witness :
    (main_run { show_all := false, sort_by_time := false }
      [{ path := "x", probe1 := none, probe2 := none, openResult := none },
       { path := "d",
         probe1 := some { mode := 0o040755, nlink := 2, uid := 0, gid := 0, size := 0,
                          mtime := 0, blocks := 8 },
         probe2 := none, openResult := some [] }]).2 = 1 ∧
    OutEvent.totalLine "d" 0 ∈
      (main_run { show_all := false, sort_by_time := false }
        [{ path := "x", probe1 := none, probe2 := none, openResult := none },
         { path := "d",
           probe1 := some { mode := 0o040755, nlink := 2, uid := 0, gid := 0, size := 0,
                            mtime := 0, blocks := 8 },
           probe2 := none, openResult := some [] }]).1 :=
  ⟨(main_exit_spec { show_all := false, sort_by_time := false } _).2.1.mpr
     ⟨{ path := "x", probe1 := none, probe2 := none, openResult := none },
      by simp, Or.inl rfl⟩,
   (main_exit_spec { show_all := false, sort_by_time := false } _).2.2.2.2
     { path := "d",
       probe1 := some { mode := 0o040755, nlink := 2, uid := 0, gid := 0, size := 0,
                        mtime := 0, blocks := 8 },
       probe2 := none, openResult := some [] }
     (by simp)
     { mode := 0o040755, nlink := 2, uid := 0, gid := 0, size := 0, mtime := 0, blocks := 8 }
     rfl (by decide) [] rfl⟩

/-- C8: for every successfully opened directory the total line prints the
accumulated block sum divided by two with truncating integer division
(512-byte units rendered as 1K units), not the raw sum: the printed value
v satisfies 2v ≤ S < 2v + 2 for the accumulated sum S, and on a concrete
directory with block sum 5 the printed value is 2. -/
theorem total_line_spec (opts : OptionsRec) (path : String) (p1 p2 : Option StatRec)
    (contents : List DirEnt) (sh : Bool) :
    OutEvent.totalLine path ((collect_entries opts.show_all contents).2 / 2) ∈
      (list_directory_run opts
        { path := path, probe1 := p1, probe2 := p2, openResult := some contents } sh).1 ∧
    (collect_entries opts.show_all contents).2 =
      (((collect_entries opts.show_all contents).1).map (fun fe => fe.st.blocks)).sum ∧
    2 * ((collect_entries opts.show_all contents).2 / 2) ≤
      (collect_entries opts.show_all contents).2 ∧
    (collect_entries opts.show_all contents).2 <
      2 * ((collect_entries opts.show_all contents).2 / 2) + 2 ∧
    (collect_entries false
      [{ name := "f",
         probe := some { mode := 0o100644, nlink := 1, uid := 0, gid := 0, size := 0,
                         mtime := 0, blocks := 5 },
         followProbe := none }]).2 = 5 ∧
    OutEvent.totalLine "w" 2 ∈
      (list_directory_run { show_all := false, sort_by_time := false }
        { path := "w", probe1 := none, probe2 := none,
          openResult := some
            [{ name := "f",
               probe := some { mode := 0o100644, nlink := 1, uid := 0, gid := 0, size := 0,
                               mtime := 0, blocks := 5 },
               followProbe := none }] } false).1 := by
  refine ⟨totalLine_mem_list_directory_run opts
    { path := path, probe1 := p1, probe2 := p2, openResult := some contents } sh contents rfl,
    (collect_entries_characterization opts.show_all contents).2, by omega, by omega, by decide,
    ?_⟩
  decide

/-- C10: a target classified as a plain file is probed a second time just
before rendering; when that second probe fails the target is silently
omitted (its render contributes no line) and the exit status is
unaffected by second probes entirely, so a run whose only target fails
just the second probe still exits 0 with no output. -/
theorem second_probe_spec :
    (∀ t : Target, t.probe2 = none → render_file_target t = []) ∧
    (∀ (opts : OptionsRec) (ts : List Target),
      (main_run opts (ts.map (fun t => { t with probe2 := none }))).2 =
        (main_run opts ts).2) ∧
    (main_run { show_all := false, sort_by_time := false }
      [{ path := "f",
         probe1 := some { mode := 0o100644, nlink := 1, uid := 0, gid := 0, size := 0,
                          mtime := 0, blocks := 0 },
         probe2 := none, openResult := none }] = ([], 0)) := by
  refine ⟨?_, ?_, by decide⟩
  · intro t h
    simp [render_file_target, h]
  · intro opts ts
    obtain ⟨hc1, hi1⟩ := main_run_exit opts (ts.map (fun t => { t with probe2 := none }))
    obtain ⟨hc2, hi2⟩ := main_run_exit opts ts
    have hiff : ((main_run opts (ts.map (fun t => { t with probe2 := none }))).2 = 1) ↔
        ((main_run opts ts).2 = 1) := by
      rw [hi1, hi2]
      constructor
      · rintro ⟨t', ht', hf⟩
        obtain ⟨t, ht, rfl⟩ := List.mem_map.mp ht'
        exact ⟨t, ht, hf⟩
      · rintro ⟨t, ht, hf⟩
        exact ⟨{ t with probe2 := none }, List.mem_map_of_mem _ ht, hf⟩
    rcases hc1 with h1 | h1 <;> rcases hc2 with h2 | h2
    · rw [h1, h2]
    · have := hiff.mpr h2
      omega
    · have := hiff.mp h1
      omega
    · rw [h1, h2]

/-- Witness for the C10 theorem: a file target whose second probe fails
renders nothing. -/
theorem second_probe_spec_witness :
    render_file_target
      { path := "g",
        probe1 := some { mode := 0o100644, nlink := 1, uid := 0, gid := 0, size := 0,
                         mtime := 0, blocks := 0 },
        probe2 := none, openResult := none } = [] :=
  second_probe_spec.1
    { path := "g",
      probe1 := some { mode := 0o100644, nlink := 1, uid := 0, gid := 0, size := 0,
                       mtime := 0, blocks := 0 },
      probe2 := none, openResult := none } rfl
